import Mathlib

/-!
Verification of the scoring engine and session aggregation of mahjong.py
(repository yawnoc/mahjong-stats).  The Python functions are embedded as
executable Lean definitions: machine integers become Nat and Int (Python
integers are unbounded, so no wrap-around is modelled), Python float
division in the rate computation is modelled by exact rational division,
and fallible code returns an explicit error value.
-/

namespace Mahjong

/-- Scoring specification token for a single player on a game line, as
produced by the game regular expression of mahjong.py: a digit string
(the winning number of faan), d for the discarding player, t for taking
on all losses for a self drawn win, f for a false win, and a hyphen
otherwise. -/
inductive Spec where
  | int : Nat → Spec
  | d : Spec
  | t : Spec
  | f : Spec
  | hyphen : Spec
deriving DecidableEq, Repr

/-- Python spec.isdigit() on a token matched by the game regular
expression: true exactly on the integer tokens. -/
def Spec.isDigit : Spec → Bool
  | .int _ => true
  | _ => false

/-- Python int(spec) on a token; the source only applies it to digit
tokens, where it yields the non negative integer value. -/
def Spec.toValue : Spec → Nat
  | .int v => v
  | _ => 0

/-- Function base_amount of mahjong.py: the base amount for a given
number of faan, doubling up to 4 faan and then alternating midpoint
insertions (one-n-two bucks with half spicy increase). -/
def base_amount (faan : Nat) : Nat :=
  if faan ≤ 4 then 2 ^ faan
  else if faan % 2 = 1 then 24 * 2 ^ ((faan - 5) / 2)
  else 32 * 2 ^ ((faan - 6) / 2)

/-- Function cap_faan of mahjong.py (a closure over max_faan): cap the
winning number of faan at the maximum. -/
def cap_faan (max_faan faan : Nat) : Nat := min max_faan faan

/-- Python list indexing spec_list[i].  Every use in the source is at an
index known to be in range, so the default value is never relevant
there. -/
def specAt (spec_list : List Spec) (i : Nat) : Spec :=
  spec_list.getD i Spec.hyphen

/-- Result of parse_spec_list.  ok carries the win list and the net
score list.  invalid models the raise_exception call with the message
"does not properly specify a game".  noneReturned models the fact that
for any other token combination the Python function falls off the end
and returns None, which makes the caller of parse_spec_list fail with a
TypeError when unpacking the result. -/
inductive SpecResult where
  | ok : List Nat → List Int → SpecResult
  | invalid : SpecResult
  | noneReturned : SpecResult
deriving DecidableEq, Repr

/-- Function parse_spec_list of mahjong.py: parse a list of scoring
specifications into the win list and the (intended zero sum) net score
list.  The loops of the source that assign a value to every index of
net_score_list are rendered as a map over List.range, and the branches
that assign only two indices are rendered as List.set on the list of
zeros, exactly following the assignments of the source. -/
def parse_spec_list (max_faan : Nat) (spec_list : List Spec)
    (num_players : Nat) : SpecResult :=
  let hyphen_count := spec_list.count Spec.hyphen
  let is_integer_list := spec_list.map Spec.isDigit
  let integer_count := is_integer_list.count true
  let win_list : List Nat := List.replicate num_players 0
  let net_score_list : List Int := List.replicate num_players 0
  if hyphen_count = num_players then
    -- Draw: no changes
    .ok win_list net_score_list
  else if hyphen_count = num_players - 1 then
    if spec_list.count Spec.f = 1 then
      -- False win: the false winning player pays twice the maximal base
      -- amount to each of the other players
      let false_index := spec_list.indexOf Spec.f
      .ok win_list ((List.range num_players).map (fun n =>
        if n = false_index then
          -2 * ((num_players : Int) - 1) * (base_amount max_faan : Int)
        else
          2 * (base_amount max_faan : Int)))
    else if integer_count = 1 then
      -- Self drawn win: the winner receives twice the winning base
      -- amount from each of the other players
      let winner_index := is_integer_list.indexOf true
      let winning_faan := cap_faan max_faan (specAt spec_list winner_index).toValue
      .ok (win_list.set winner_index 1) ((List.range num_players).map (fun n =>
        if n = winner_index then
          2 * ((num_players : Int) - 1) * (base_amount winning_faan : Int)
        else
          -2 * (base_amount winning_faan : Int)))
    else
      .noneReturned
  else if hyphen_count = num_players - 2 then
    if integer_count = 1 ∧ spec_list.count Spec.d = 1 then
      -- Discarded win: the winner receives num_players times the winning
      -- base amount from the discarding player alone
      let winner_index := is_integer_list.indexOf true
      let winning_faan := cap_faan max_faan (specAt spec_list winner_index).toValue
      let discarding_index := spec_list.indexOf Spec.d
      .ok (win_list.set winner_index 1)
        ((net_score_list.set winner_index
            ((num_players : Int) * (base_amount winning_faan : Int))).set
          discarding_index
          (-(num_players : Int) * (base_amount winning_faan : Int)))
    else if integer_count = 1 ∧ spec_list.count Spec.t = 1 then
      -- Taking on all losses for a self drawn win
      let winner_index := is_integer_list.indexOf true
      let winning_faan := cap_faan max_faan (specAt spec_list winner_index).toValue
      let taking_on_index := spec_list.indexOf Spec.t
      .ok (win_list.set winner_index 1)
        ((net_score_list.set winner_index
            (2 * ((num_players : Int) - 1) * (base_amount winning_faan : Int))).set
          taking_on_index
          (-2 * ((num_players : Int) - 1) * (base_amount winning_faan : Int)))
    else
      .invalid
  else
    .noneReturned

/-- Additive statistics of a single player, the clean slate provided by
add_player being all zeros.  Python integers are unbounded, hence Nat
and Int. -/
structure PlayerStats where
  games_played : Nat
  games_won : Nat
  net_score : Int
deriving DecidableEq, Repr

/-- The clean slate of additive statistics provided by add_player. -/
def zeroStats : PlayerStats := ⟨0, 0, 0⟩

/-- Function add_player of mahjong.py.  The Python dictionary is
modelled as an insertion ordered association list with distinct keys. -/
def add_player (stats_dict : List (String × PlayerStats)) (player : String) :
    List (String × PlayerStats) :=
  if (stats_dict.lookup player).isSome then stats_dict
  else stats_dict ++ [(player, zeroStats)]

/-- One iteration of the update loop of file_to_dict: the entry of the
given player gets games_played increased by 1, games_won by the win
flag and net_score by the net score delta. -/
def bump (stats_dict : List (String × PlayerStats)) (player : String)
    (win : Nat) (net : Int) : List (String × PlayerStats) :=
  stats_dict.map (fun e =>
    if e.1 = player then
      (e.1, ⟨e.2.games_played + 1, e.2.games_won + win, e.2.net_score + net⟩)
    else e)

/-- The update loop of file_to_dict over the enumerated player list and
the parallel win and net score lists. -/
def update_stats (stats_dict : List (String × PlayerStats))
    (player_list : List String) (win_list : List Nat)
    (net_score_list : List Int) : List (String × PlayerStats) :=
  (player_list.zip (win_list.zip net_score_list)).foldl
    (fun d e => bump d e.1 e.2.1 e.2.2) stats_dict

/-- Fatal line errors raised while processing a roster line or a game
line in file_to_dict.  typeFault stands for the TypeError produced by
unpacking the None returned by parse_spec_list, as opposed to the
deliberate descriptive exceptions of raise_exception. -/
inductive LineError where
  | duplicatePlayer
  | playersNotSpecified
  | scoreCountMismatch
  | badGameLine
  | typeFault
deriving DecidableEq, Repr

/-- A line event of the scores file after the regular expressions of
file_to_dict have classified the line and extracted its groups: either
a roster of player names or a list of scoring specifications.  Date
lines and out of range lines leave the statistics untouched and are not
modelled. -/
inductive Event where
  | roster : List String → Event
  | game : List Spec → Event

/-- State threaded through the line loop of file_to_dict: the
dictionary of statistics, and the current player list if one has been
specified (Python tests the local variable player_list for
existence). -/
structure AggState where
  stats_dict : List (String × PlayerStats)
  player_list : Option (List String)
deriving DecidableEq, Repr

/-- Processing of one roster line or one game line by file_to_dict.
The duplicate check of the source compares the length of the player
list with the length of its set of players, which is the negation of
List.Nodup; the raise happens before any player is added. -/
def step (max_faan : Nat) (st : AggState) : Event → Except LineError AggState
  | .roster names =>
      if ¬ names.Nodup then .error .duplicatePlayer
      else .ok ⟨names.foldl add_player st.stats_dict, some names⟩
  | .game specs =>
      match st.player_list with
      | Option.none => .error .playersNotSpecified
      | some players =>
          if players.length ≠ specs.length then .error .scoreCountMismatch
          else
            match parse_spec_list max_faan specs players.length with
            | .ok win_list net_score_list =>
                .ok ⟨update_stats st.stats_dict players win_list net_score_list,
                     some players⟩
            | .invalid => .error .badGameLine
            | .noneReturned => .error .typeFault

/-- Decidable equality of results, so that concrete runs can be checked
by evaluation. -/
instance exceptDecEq {ε α : Type} [DecidableEq ε] [DecidableEq α] :
    DecidableEq (Except ε α)
  | .error e1, .error e2 =>
      match decEq e1 e2 with
      | isTrue h => isTrue (h ▸ rfl)
      | isFalse h => isFalse (fun hc => h (by injection hc))
  | .error _, .ok _ => isFalse (fun hc => Except.noConfusion hc)
  | .ok _, .error _ => isFalse (fun hc => Except.noConfusion hc)
  | .ok a1, .ok a2 =>
      match decEq a1 a2 with
      | isTrue h => isTrue (h ▸ rfl)
      | isFalse h => isFalse (fun hc => h (by injection hc))

/-- The line loop of file_to_dict over a list of events, stopping at the
first fatal error (the Python exception aborts processing). -/
def runEvents (max_faan : Nat) : AggState → List Event → Except LineError AggState
  | st, [] => .ok st
  | st, e :: es =>
      match step max_faan st e with
      | .ok st2 => runEvents max_faan st2 es
      | .error err => .error err

/-- Initial state of file_to_dict: empty dictionary, no player list. -/
def initState : AggState := ⟨[], Option.none⟩

/-- Error raised by the rate computation of dict_to_csv: Python raises
ZeroDivisionError when games_played is zero. -/
inductive CsvError where
  | zeroDivision
deriving DecidableEq, Repr

/-- The rate computation loop of dict_to_csv.  Python float division is
modelled by exact rational division; division by zero raises
ZeroDivisionError in Python, modelled by the error result.  Each entry
is extended with games_won_pc and net_score_avg. -/
def compute_rates : List (String × PlayerStats) →
    Except CsvError (List (String × PlayerStats × ℚ × ℚ))
  | [] => .ok []
  | (player, p) :: rest =>
      if p.games_played = 0 then .error .zeroDivision
      else
        match compute_rates rest with
        | .ok rs =>
            .ok ((player, p,
              (p.games_won : ℚ) / (p.games_played : ℚ) * 100,
              (p.net_score : ℚ) / (p.games_played : ℚ)) :: rs)
        | .error e => .error e

/-- The comparison realised by the sort of dict_to_csv, whose key is the
pair (-net_score, player name) compared lexicographically in ascending
order: higher raw net score first, ties broken by ascending name. -/
def rowLe (a b : String × PlayerStats × ℚ × ℚ) : Prop :=
  b.2.1.net_score < a.2.1.net_score ∨
    (a.2.1.net_score = b.2.1.net_score ∧ a.1 ≤ b.1)

instance : DecidableRel rowLe := fun a b => by
  unfold rowLe; exact inferInstance

instance : IsTotal (String × PlayerStats × ℚ × ℚ) rowLe where
  total a b := by
    rcases lt_trichotomy a.2.1.net_score b.2.1.net_score with h | h | h
    · exact Or.inr (Or.inl h)
    · rcases le_total a.1 b.1 with h2 | h2
      · exact Or.inl (Or.inr ⟨h, h2⟩)
      · exact Or.inr (Or.inr ⟨h.symm, h2⟩)
    · exact Or.inl (Or.inl h)

instance : IsTrans (String × PlayerStats × ℚ × ℚ) rowLe where
  trans a b c hab hbc := by
    rcases hab with hab | ⟨hab, hab2⟩
    · rcases hbc with hbc | ⟨hbc, _⟩
      · exact Or.inl (hbc.trans hab)
      · exact Or.inl (hbc ▸ hab)
    · rcases hbc with hbc | ⟨hbc, hbc2⟩
      · exact Or.inl (hab ▸ hbc)
      · exact Or.inr ⟨hab.trans hbc, hab2.trans hbc2⟩

/-- Python round on an exact rational: round to the nearest integer with
ties going to the even integer. -/
def round_half_even (q : ℚ) : ℤ :=
  let fl := ⌊q⌋
  if q - fl < 1 / 2 then fl
  else if 1 / 2 < q - fl then fl + 1
  else if fl % 2 = 0 then fl else fl + 1

/-- Python round(q, 1) on an exact rational: round to the nearest
multiple of one tenth, ties to even. -/
def round1 (q : ℚ) : ℚ := (round_half_even (q * 10) : ℚ) / 10

/-- Function dict_to_csv of mahjong.py, modelled down to the ordered
rows of the produced CSV: rates are computed for every player (raising
on zero games played), the players are sorted by the key (-net_score,
name) on the raw integer net score, and then the displayed rates are
rounded.  The final string formatting of the rows is not modelled.  The
sort of Python is stable, as is insertion sort. -/
def dict_to_csv (stats_dict : List (String × PlayerStats)) :
    Except CsvError (List (String × PlayerStats × ℚ × ℚ)) :=
  match compute_rates stats_dict with
  | .error e => .error e
  | .ok rows =>
      .ok ((List.insertionSort rowLe rows).map (fun r =>
        (r.1, r.2.1, (round_half_even r.2.2.1 : ℚ), round1 r.2.2.2)))

/-! Helper lemmas about the token counts and list manipulations used by
parse_spec_list. -/

/-- Membership from an indexing fact. -/
lemma mem_of_getElem_eq {α : Type} (l : List α) (n : Nat) (a : α)
    (h : l[n]? = some a) : a ∈ l := by
  obtain ⟨hlt, he⟩ := List.getElem?_eq_some.mp h
  exact he ▸ List.getElem_mem hlt

/-- Count of an element in a cons, as an explicit conditional. -/
lemma count_cons_ite {α : Type} [DecidableEq α] (x a : α) (l : List α) :
    (x :: l).count a = l.count a + (if x = a then 1 else 0) := by
  by_cases h : x = a
  · subst h; simp [List.count_cons_self]
  · rw [List.count_cons_of_ne (Ne.symm h)]; simp [h]

/-- Every token is a hyphen, an f, a d, a t or a digit token, so the
five counts inspected by parse_spec_list partition the token list. -/
lemma count_partition (l : List Spec) :
    l.count Spec.hyphen + l.count Spec.f + l.count Spec.d + l.count Spec.t
      + (l.map Spec.isDigit).count true = l.length := by
  induction l with
  | nil => simp
  | cons s ss ih =>
      cases s <;> simp [count_cons_ite, Spec.isDigit] <;> omega

/-- Sum of a function over List.range that never hits its special
index. -/
lemma sum_range_map_ite_of_le (N i : Nat) (a b : Int) (h : N ≤ i) :
    ((List.range N).map (fun n => if n = i then a else b)).sum = N * b := by
  induction N with
  | zero => simp
  | succ m ih =>
      rw [List.range_succ, List.map_append, List.sum_append, ih (by omega)]
      have hm : ¬ (m = i) := by omega
      simp only [List.map_cons, List.map_nil, List.sum_cons, List.sum_nil,
        if_neg hm]
      push_cast
      ring

/-- Sum of a function over List.range that takes value a at one index
below N and b everywhere else. -/
lemma sum_range_map_ite (N i : Nat) (a b : Int) (h : i < N) :
    ((List.range N).map (fun n => if n = i then a else b)).sum
      = a + ((N : Int) - 1) * b := by
  induction N with
  | zero => exact absurd h (Nat.not_lt_zero i)
  | succ m ih =>
      rw [List.range_succ, List.map_append, List.sum_append]
      by_cases hm : i < m
      · rw [ih hm]
        have hne : ¬ (m = i) := by omega
        simp only [List.map_cons, List.map_nil, List.sum_cons, List.sum_nil,
          if_neg hne]
        push_cast
        ring
      · have him : i = m := by omega
        subst him
        rw [sum_range_map_ite_of_le i i a b (le_refl i)]
        simp only [List.map_cons, List.map_nil, List.sum_cons, List.sum_nil,
          if_pos rfl]
        push_cast
        ring

/-- Sum after a single assignment into a list. -/
lemma sum_set_eq (l : List Int) (i : Nat) (a : Int) (h : i < l.length) :
    (l.set i a).sum = l.sum - l.getD i 0 + a := by
  induction l generalizing i with
  | nil => simp at h
  | cons x xs ih =>
      cases i with
      | zero =>
          simp only [List.set_cons_zero, List.sum_cons, List.getD_cons_zero]
          ring
      | succ j =>
          have hj : j < xs.length := by simpa using h
          simp only [List.set_cons_succ, List.sum_cons, List.getD_cons_succ,
            ih j hj]
          ring

/-- Reading the list of zeros. -/
lemma getD_replicate_zero (N i : Nat) : (List.replicate N (0 : Int)).getD i 0 = 0 := by
  rw [List.getD_eq_getElem?_getD, List.getElem?_replicate]
  split <;> rfl

/-- Reading away from a single assignment. -/
lemma getD_set_ne (l : List Int) (i j : Nat) (a : Int) (h : i ≠ j) :
    (l.set i a).getD j 0 = l.getD j 0 := by
  rw [List.getD_eq_getElem?_getD, List.getD_eq_getElem?_getD,
    List.getElem?_set_ne h]

/-- In a boolean list holding exactly one true, the index of true is the
position of any true entry. -/
lemma indexOf_true_eq (bs : List Bool) (i : Nat)
    (h1 : bs.count true = 1) (h2 : bs[i]? = some true) :
    bs.indexOf true = i := by
  induction bs generalizing i with
  | nil => simp at h2
  | cons b t ih =>
      cases b with
      | true =>
          rw [List.count_cons_self] at h1
          cases i with
          | zero => simp
          | succ j =>
              exfalso
              have hmem : true ∈ t :=
                mem_of_getElem_eq t j true (by simpa using h2)
              have := List.count_pos_iff.mpr hmem
              omega
      | false =>
          have hcount : t.count true = 1 := by
            rwa [List.count_cons_of_ne (by simp)] at h1
          cases i with
          | zero => simp at h2
          | succ j =>
              rw [List.indexOf_cons_ne t (by simp), ih j hcount (by simpa using h2)]

/-! Branch characterisations of parse_spec_list: one lemma per control
path of the source function. -/

/-- Draw branch: as many hyphens as players. -/
lemma parse_draw_eq (max_faan N : Nat) (l : List Spec)
    (hh : l.count Spec.hyphen = N) :
    parse_spec_list max_faan l N
      = .ok (List.replicate N 0) (List.replicate N 0) := by
  simp only [parse_spec_list]
  rw [if_pos hh]

/-- False win branch: one hyphen short, exactly one f token. -/
lemma parse_falsewin_eq (max_faan N : Nat) (l : List Spec) (hN : 1 ≤ N)
    (hh : l.count Spec.hyphen = N - 1) (hf : l.count Spec.f = 1) :
    parse_spec_list max_faan l N = .ok (List.replicate N 0)
      ((List.range N).map (fun n =>
        if n = l.indexOf Spec.f then
          -2 * ((N : Int) - 1) * (base_amount max_faan : Int)
        else 2 * (base_amount max_faan : Int))) := by
  have h1 : ¬ l.count Spec.hyphen = N := by rw [hh]; omega
  simp only [parse_spec_list]
  rw [if_neg h1, if_pos hh, if_pos hf]

/-- Self drawn win branch: one hyphen short, exactly one integer
token. -/
lemma parse_selfdrawn_eq (max_faan N : Nat) (l : List Spec) (hN : 1 ≤ N)
    (hlen : l.length = N) (hh : l.count Spec.hyphen = N - 1)
    (hi : (l.map Spec.isDigit).count true = 1) :
    parse_spec_list max_faan l N
      = .ok ((List.replicate N 0).set ((l.map Spec.isDigit).indexOf true) 1)
        ((List.range N).map (fun n =>
          if n = (l.map Spec.isDigit).indexOf true then
            2 * ((N : Int) - 1) * (base_amount (cap_faan max_faan
              (specAt l ((l.map Spec.isDigit).indexOf true)).toValue) : Int)
          else
            -2 * (base_amount (cap_faan max_faan
              (specAt l ((l.map Spec.isDigit).indexOf true)).toValue) : Int))) := by
  have hpart := count_partition l
  rw [hlen, hh] at hpart
  have hf : l.count Spec.f ≠ 1 := by omega
  have h1 : ¬ l.count Spec.hyphen = N := by rw [hh]; omega
  simp only [parse_spec_list]
  rw [if_neg h1, if_pos hh, if_neg hf, if_pos hi]

/-- Discarded win branch: two hyphens short, one integer, one d. -/
lemma parse_discarded_eq (max_faan N : Nat) (l : List Spec) (hN : 2 ≤ N)
    (hh : l.count Spec.hyphen = N - 2)
    (hi : (l.map Spec.isDigit).count true = 1)
    (hd : l.count Spec.d = 1) :
    parse_spec_list max_faan l N
      = .ok ((List.replicate N 0).set ((l.map Spec.isDigit).indexOf true) 1)
        (((List.replicate N (0 : Int)).set ((l.map Spec.isDigit).indexOf true)
            ((N : Int) * (base_amount (cap_faan max_faan
              (specAt l ((l.map Spec.isDigit).indexOf true)).toValue) : Int))).set
          (l.indexOf Spec.d)
          (-(N : Int) * (base_amount (cap_faan max_faan
            (specAt l ((l.map Spec.isDigit).indexOf true)).toValue) : Int))) := by
  have h1 : ¬ l.count Spec.hyphen = N := by rw [hh]; omega
  have h2 : ¬ l.count Spec.hyphen = N - 1 := by rw [hh]; omega
  simp only [parse_spec_list]
  rw [if_neg h1, if_neg h2, if_pos hh, if_pos ⟨hi, hd⟩]

/-- Taking on branch: two hyphens short, one integer, one t. -/
lemma parse_takenon_eq (max_faan N : Nat) (l : List Spec) (hN : 2 ≤ N)
    (hlen : l.length = N) (hh : l.count Spec.hyphen = N - 2)
    (hi : (l.map Spec.isDigit).count true = 1)
    (ht : l.count Spec.t = 1) :
    parse_spec_list max_faan l N
      = .ok ((List.replicate N 0).set ((l.map Spec.isDigit).indexOf true) 1)
        (((List.replicate N (0 : Int)).set ((l.map Spec.isDigit).indexOf true)
            (2 * ((N : Int) - 1) * (base_amount (cap_faan max_faan
              (specAt l ((l.map Spec.isDigit).indexOf true)).toValue) : Int))).set
          (l.indexOf Spec.t)
          (-2 * ((N : Int) - 1) * (base_amount (cap_faan max_faan
            (specAt l ((l.map Spec.isDigit).indexOf true)).toValue) : Int))) := by
  have hpart := count_partition l
  rw [hlen, hh, hi, ht] at hpart
  have hd : l.count Spec.d ≠ 1 := by omega
  have h1 : ¬ l.count Spec.hyphen = N := by rw [hh]; omega
  have h2 : ¬ l.count Spec.hyphen = N - 1 := by rw [hh]; omega
  simp only [parse_spec_list]
  rw [if_neg h1, if_neg h2, if_pos hh, if_neg (fun hc => hd hc.2),
    if_pos ⟨hi, ht⟩]

/-- Invalid branch: two hyphens short, neither the discarded win nor the
taking on conditions hold, so raise_exception is reached. -/
lemma parse_invalid_eq (max_faan N : Nat) (l : List Spec) (hN : 2 ≤ N)
    (hh : l.count Spec.hyphen = N - 2)
    (hD : ¬ ((l.map Spec.isDigit).count true = 1 ∧ l.count Spec.d = 1))
    (hT : ¬ ((l.map Spec.isDigit).count true = 1 ∧ l.count Spec.t = 1)) :
    parse_spec_list max_faan l N = .invalid := by
  have h1 : ¬ l.count Spec.hyphen = N := by rw [hh]; omega
  have h2 : ¬ l.count Spec.hyphen = N - 1 := by rw [hh]; omega
  simp only [parse_spec_list]
  rw [if_neg h1, if_neg h2, if_pos hh, if_neg hD, if_neg hT]

/-- Fall through in the middle block: one hyphen short but neither a
single f nor a single integer, so the function returns None. -/
lemma parse_none_mid_eq (max_faan N : Nat) (l : List Spec) (hN : 1 ≤ N)
    (hh : l.count Spec.hyphen = N - 1)
    (hf : l.count Spec.f ≠ 1)
    (hi : (l.map Spec.isDigit).count true ≠ 1) :
    parse_spec_list max_faan l N = .noneReturned := by
  have h1 : ¬ l.count Spec.hyphen = N := by rw [hh]; omega
  simp only [parse_spec_list]
  rw [if_neg h1, if_pos hh, if_neg hf, if_neg hi]

/-- Fall through past every block: the hyphen count matches none of the
three tested values, so the function returns None. -/
lemma parse_none_eq (max_faan N : Nat) (l : List Spec)
    (h1 : l.count Spec.hyphen ≠ N)
    (h2 : l.count Spec.hyphen ≠ N - 1)
    (h3 : l.count Spec.hyphen ≠ N - 2) :
    parse_spec_list max_faan l N = .noneReturned := by
  simp only [parse_spec_list]
  rw [if_neg h1, if_neg h2, if_neg h3]

/-- The entry at the winner index of is_integer_list is an integer
token. -/
lemma exists_int_at_winner (l : List Spec) (h : true ∈ l.map Spec.isDigit) :
    ∃ v, l[(l.map Spec.isDigit).indexOf true]? = some (Spec.int v) := by
  have h1 : (l.map Spec.isDigit)[(l.map Spec.isDigit).indexOf true]? = some true :=
    List.getElem?_indexOf h
  rw [List.getElem?_map] at h1
  cases hs : l[(l.map Spec.isDigit).indexOf true]? with
  | none => rw [hs] at h1; simp at h1
  | some s =>
      rw [hs] at h1
      simp at h1
      cases s
      case int v => exact ⟨v, rfl⟩
      all_goals simp [Spec.isDigit] at h1

/-- Win flags coming out of parse_spec_list are all at most one. -/
lemma win_le_one_replicate (N : Nat) : ∀ x ∈ List.replicate N (0 : Nat), x ≤ 1 := by
  intro x hx
  rw [List.eq_of_mem_replicate hx]
  omega

/-- Win flags after setting the winner flag are all at most one. -/
lemma win_le_one_set (N i : Nat) :
    ∀ x ∈ (List.replicate N (0 : Nat)).set i 1, x ≤ 1 := by
  intro x hx
  rcases List.mem_or_eq_of_mem_set hx with h | h
  · rw [List.eq_of_mem_replicate h]; omega
  · omega

/-- Master lemma for the ok results of parse_spec_list: every win flag
is at most one, and the net score list is zero sum. -/
lemma parse_ok_props (max_faan N : Nat) (l : List Spec) (w : List Nat)
    (s : List Int) (hlen : l.length = N)
    (hok : parse_spec_list max_faan l N = .ok w s) :
    (∀ x ∈ w, x ≤ 1) ∧ s.sum = 0 := by
  by_cases h1 : l.count Spec.hyphen = N
  · rw [parse_draw_eq max_faan N l h1] at hok
    injection hok with hw hs
    subst hw; subst hs
    exact ⟨win_le_one_replicate N, by simp⟩
  · by_cases h2 : l.count Spec.hyphen = N - 1
    · have hN1 : 1 ≤ N := by omega
      by_cases hf : l.count Spec.f = 1
      · rw [parse_falsewin_eq max_faan N l hN1 h2 hf] at hok
        injection hok with hw hs
        subst hw; subst hs
        refine ⟨win_le_one_replicate N, ?_⟩
        have hflt : l.indexOf Spec.f < N := by
          have := List.indexOf_lt_length.mpr
            (List.count_pos_iff.mp (by omega : 0 < l.count Spec.f))
          omega
        rw [sum_range_map_ite N _ _ _ hflt]
        ring
      · by_cases hi : (l.map Spec.isDigit).count true = 1
        · rw [parse_selfdrawn_eq max_faan N l hN1 hlen h2 hi] at hok
          injection hok with hw hs
          subst hw; subst hs
          refine ⟨win_le_one_set N _, ?_⟩
          have hwlt : (l.map Spec.isDigit).indexOf true < N := by
            have := List.indexOf_lt_length.mpr
              (List.count_pos_iff.mp
                (by omega : 0 < (l.map Spec.isDigit).count true))
            rw [List.length_map, hlen] at this
            exact this
          rw [sum_range_map_ite N _ _ _ hwlt]
          ring
        · rw [parse_none_mid_eq max_faan N l hN1 h2 hf hi] at hok
          simp at hok
    · by_cases h3 : l.count Spec.hyphen = N - 2
      · have hN2 : 2 ≤ N := by omega
        by_cases hD : (l.map Spec.isDigit).count true = 1 ∧ l.count Spec.d = 1
        · rw [parse_discarded_eq max_faan N l hN2 h3 hD.1 hD.2] at hok
          injection hok with hw hs
          subst hw; subst hs
          refine ⟨win_le_one_set N _, ?_⟩
          have hwmem : true ∈ l.map Spec.isDigit :=
            List.count_pos_iff.mp (by omega : 0 < (l.map Spec.isDigit).count true)
          have hwlt : (l.map Spec.isDigit).indexOf true < N := by
            have := List.indexOf_lt_length.mpr hwmem
            rw [List.length_map, hlen] at this
            exact this
          have hdmem : Spec.d ∈ l :=
            List.count_pos_iff.mp (by omega : 0 < l.count Spec.d)
          have hdlt : l.indexOf Spec.d < N := by
            have := List.indexOf_lt_length.mpr hdmem
            omega
          have hne : (l.map Spec.isDigit).indexOf true ≠ l.indexOf Spec.d := by
            intro he
            obtain ⟨v, hv⟩ := exists_int_at_winner l hwmem
            have hd2 : l[l.indexOf Spec.d]? = some Spec.d :=
              List.getElem?_indexOf hdmem
            rw [← he, hv] at hd2
            simp at hd2
          rw [sum_set_eq _ _ _
              (by rw [List.length_set, List.length_replicate]; exact hdlt),
            sum_set_eq _ _ _ (by rw [List.length_replicate]; exact hwlt),
            getD_set_ne _ _ _ _ hne, getD_replicate_zero, getD_replicate_zero]
          simp
        · by_cases hT : (l.map Spec.isDigit).count true = 1 ∧ l.count Spec.t = 1
          · rw [parse_takenon_eq max_faan N l hN2 hlen h3 hT.1 hT.2] at hok
            injection hok with hw hs
            subst hw; subst hs
            refine ⟨win_le_one_set N _, ?_⟩
            have hwmem : true ∈ l.map Spec.isDigit :=
              List.count_pos_iff.mp
                (by omega : 0 < (l.map Spec.isDigit).count true)
            have hwlt : (l.map Spec.isDigit).indexOf true < N := by
              have := List.indexOf_lt_length.mpr hwmem
              rw [List.length_map, hlen] at this
              exact this
            have htmem : Spec.t ∈ l :=
              List.count_pos_iff.mp (by omega : 0 < l.count Spec.t)
            have htlt : l.indexOf Spec.t < N := by
              have := List.indexOf_lt_length.mpr htmem
              omega
            have hne : (l.map Spec.isDigit).indexOf true ≠ l.indexOf Spec.t := by
              intro he
              obtain ⟨v, hv⟩ := exists_int_at_winner l hwmem
              have ht2 : l[l.indexOf Spec.t]? = some Spec.t :=
                List.getElem?_indexOf htmem
              rw [← he, hv] at ht2
              simp at ht2
            rw [sum_set_eq _ _ _
                (by rw [List.length_set, List.length_replicate]; exact htlt),
              sum_set_eq _ _ _ (by rw [List.length_replicate]; exact hwlt),
              getD_set_ne _ _ _ _ hne, getD_replicate_zero, getD_replicate_zero]
            simp
          · rw [parse_invalid_eq max_faan N l hN2 h3 hD hT] at hok
            simp at hok
      · rw [parse_none_eq max_faan N l h1 h2 h3] at hok
        simp at hok

/-- C1: for every deal classified into one of the five categories
(those on which parse_spec_list succeeds), for every roster size N in
{3, 4}, every faan value (carried inside the token list) and every
max_faan, the list of per player net score deltas produced by
settlement sums to exactly zero across the N slots. -/
theorem c1_zero_sum (max_faan N : Nat) (l : List Spec) (w : List Nat)
    (s : List Int) (hN : N = 3 ∨ N = 4) (hlen : l.length = N)
    (hok : parse_spec_list max_faan l N = .ok w s) : s.sum = 0 :=
  (parse_ok_props max_faan N l w s hlen hok).2

/-- Witness for C1 at a concrete self drawn win with four players. -/
theorem c1_zero_sum_witness :
    (4 = 3 ∨ 4 = 4)
      ∧ [Spec.int 3, Spec.hyphen, Spec.hyphen, Spec.hyphen].length = 4
      ∧ parse_spec_list 8 [Spec.int 3, Spec.hyphen, Spec.hyphen, Spec.hyphen] 4
          = .ok [1, 0, 0, 0] [48, -16, -16, -16]
      ∧ ([48, -16, -16, -16] : List Int).sum = 0 :=
  ⟨Or.inr rfl, rfl, by decide,
    c1_zero_sum 8 4 [Spec.int 3, Spec.hyphen, Spec.hyphen, Spec.hyphen]
      [1, 0, 0, 0] [48, -16, -16, -16] (Or.inr rfl) rfl (by decide)⟩

/-- C2, code evaluated at the failing input: the token combination
1 2 d for three players (two integers, no hyphens, the combination the
design notes of the specification single out) matches none of the five
deal categories, yet parse_spec_list returns the Python value None
instead of raising the descriptive line error, and the caller then
fails with a TypeError when unpacking the result. -/
theorem c2_unclassifiable_none :
    parse_spec_list 8 [Spec.int 1, Spec.int 2, Spec.d] 3
      = SpecResult.noneReturned := by decide

/-- C4: for every false win deal (exactly one f token, N - 1 hyphens)
the false winner pays 2 * (N - 1) * base_amount max_faan, every other
player receives 2 * base_amount max_faan, every win flag is zero, and
the maximal faan is used, never a parsed one (no integer token exists
in such a deal). -/
theorem c4_falsewin (max_faan N : Nat) (l : List Spec)
    (hN : N = 3 ∨ N = 4) (hlen : l.length = N)
    (hf : l.count Spec.f = 1) (hh : l.count Spec.hyphen = N - 1) :
    parse_spec_list max_faan l N = .ok (List.replicate N 0)
      ((List.range N).map (fun n =>
        if n = l.indexOf Spec.f then
          -2 * ((N : Int) - 1) * (base_amount max_faan : Int)
        else 2 * (base_amount max_faan : Int))) :=
  parse_falsewin_eq max_faan N l (by rcases hN with h | h <;> omega) hh hf

/-- Witness for C4 at the concrete three player false win of the
specification, evaluating to deltas -256, 128, 128. -/
theorem c4_falsewin_witness :
    parse_spec_list 8 [Spec.f, Spec.hyphen, Spec.hyphen] 3
        = .ok (List.replicate 3 0)
          ((List.range 3).map (fun n =>
            if n = [Spec.f, Spec.hyphen, Spec.hyphen].indexOf Spec.f then
              -2 * ((3 : Int) - 1) * (base_amount 8 : Int)
            else 2 * (base_amount 8 : Int)))
      ∧ parse_spec_list 8 [Spec.f, Spec.hyphen, Spec.hyphen] 3
        = .ok [0, 0, 0] [-256, 128, 128] :=
  ⟨c4_falsewin 8 3 [Spec.f, Spec.hyphen, Spec.hyphen] (Or.inl rfl) rfl
      (by decide) (by decide),
    by decide⟩

/-- C5: for every discarded win deal (one integer token, one d token,
N - 2 hyphens), the winner flag becomes 1 and the winner receives
N * base_amount of the capped faan, the discarder pays the same amount,
and every other slot keeps flag 0 and delta 0 (the winner and discarder
indices are distinct and within range, and all other entries of the two
produced lists stay at their initial zero). -/
theorem c5_discarded (max_faan N : Nat) (l : List Spec)
    (hN : N = 3 ∨ N = 4) (hlen : l.length = N)
    (hi : (l.map Spec.isDigit).count true = 1)
    (hd : l.count Spec.d = 1)
    (hh : l.count Spec.hyphen = N - 2) :
    parse_spec_list max_faan l N
        = .ok ((List.replicate N 0).set ((l.map Spec.isDigit).indexOf true) 1)
          (((List.replicate N (0 : Int)).set ((l.map Spec.isDigit).indexOf true)
              ((N : Int) * (base_amount (cap_faan max_faan
                (specAt l ((l.map Spec.isDigit).indexOf true)).toValue) : Int))).set
            (l.indexOf Spec.d)
            (-(N : Int) * (base_amount (cap_faan max_faan
              (specAt l ((l.map Spec.isDigit).indexOf true)).toValue) : Int)))
      ∧ (l.map Spec.isDigit).indexOf true < N
      ∧ l.indexOf Spec.d < N
      ∧ (l.map Spec.isDigit).indexOf true ≠ l.indexOf Spec.d := by
  have hN2 : 2 ≤ N := by rcases hN with h | h <;> omega
  have hwmem : true ∈ l.map Spec.isDigit :=
    List.count_pos_iff.mp (by omega : 0 < (l.map Spec.isDigit).count true)
  have hwlt : (l.map Spec.isDigit).indexOf true < N := by
    have := List.indexOf_lt_length.mpr hwmem
    rw [List.length_map, hlen] at this
    exact this
  have hdmem : Spec.d ∈ l :=
    List.count_pos_iff.mp (by omega : 0 < l.count Spec.d)
  have hdlt : l.indexOf Spec.d < N := by
    have := List.indexOf_lt_length.mpr hdmem
    omega
  have hne : (l.map Spec.isDigit).indexOf true ≠ l.indexOf Spec.d := by
    intro he
    obtain ⟨v, hv⟩ := exists_int_at_winner l hwmem
    have hd2 : l[l.indexOf Spec.d]? = some Spec.d := List.getElem?_indexOf hdmem
    rw [← he, hv] at hd2
    simp at hd2
  exact ⟨parse_discarded_eq max_faan N l hN2 hh hi hd, hwlt, hdlt, hne⟩

/-- Witness for C5 at the concrete four player discarded win of the
specification with faan 5, evaluating to deltas 96, -96, 0, 0. -/
theorem c5_discarded_witness :
    (parse_spec_list 8 [Spec.int 5, Spec.d, Spec.hyphen, Spec.hyphen] 4
        = .ok ((List.replicate 4 0).set
            (([Spec.int 5, Spec.d, Spec.hyphen, Spec.hyphen].map
              Spec.isDigit).indexOf true) 1)
          (((List.replicate 4 (0 : Int)).set
              (([Spec.int 5, Spec.d, Spec.hyphen, Spec.hyphen].map
                Spec.isDigit).indexOf true)
              ((4 : Int) * (base_amount (cap_faan 8
                (specAt [Spec.int 5, Spec.d, Spec.hyphen, Spec.hyphen]
                  (([Spec.int 5, Spec.d, Spec.hyphen, Spec.hyphen].map
                    Spec.isDigit).indexOf true)).toValue) : Int))).set
            ([Spec.int 5, Spec.d, Spec.hyphen, Spec.hyphen].indexOf Spec.d)
            (-(4 : Int) * (base_amount (cap_faan 8
              (specAt [Spec.int 5, Spec.d, Spec.hyphen, Spec.hyphen]
                (([Spec.int 5, Spec.d, Spec.hyphen, Spec.hyphen].map
                  Spec.isDigit).indexOf true)).toValue) : Int)))
      ∧ ([Spec.int 5, Spec.d, Spec.hyphen, Spec.hyphen].map
          Spec.isDigit).indexOf true < 4
      ∧ [Spec.int 5, Spec.d, Spec.hyphen, Spec.hyphen].indexOf Spec.d < 4
      ∧ ([Spec.int 5, Spec.d, Spec.hyphen, Spec.hyphen].map
          Spec.isDigit).indexOf true
        ≠ [Spec.int 5, Spec.d, Spec.hyphen, Spec.hyphen].indexOf Spec.d)
      ∧ parse_spec_list 8 [Spec.int 5, Spec.d, Spec.hyphen, Spec.hyphen] 4
        = .ok [1, 0, 0, 0] [96, -96, 0, 0] :=
  ⟨c5_discarded 8 4 [Spec.int 5, Spec.d, Spec.hyphen, Spec.hyphen]
      (Or.inr rfl) rfl (by decide) (by decide) (by decide),
    by decide⟩

/-! Preservation lemmas for replacing an integer token by another
integer token, used for the faan capping round trip. -/

/-- Counting a marker token is unaffected by replacing an integer token
with another integer token. -/
lemma count_set_int (l : List Spec) (i v m : Nat) (c : Spec)
    (hv : l[i]? = some (Spec.int v)) (hc : ∀ u, c ≠ Spec.int u) :
    (l.set i (Spec.int m)).count c = l.count c := by
  induction l generalizing i with
  | nil => simp at hv
  | cons x xs ih =>
      cases i with
      | zero =>
          have hx : x = Spec.int v := by simpa using hv
          subst hx
          rw [List.set_cons_zero, count_cons_ite, count_cons_ite]
          have h1 : ¬ (Spec.int m = c) := fun h => hc m h.symm
          have h2 : ¬ (Spec.int v = c) := fun h => hc v h.symm
          simp [h1, h2]
      | succ j =>
          rw [List.set_cons_succ, count_cons_ite, count_cons_ite,
            ih j (by simpa using hv)]

/-- The is_integer_list is unaffected by replacing an integer token with
another integer token. -/
lemma map_isDigit_set (l : List Spec) (i v m : Nat)
    (hv : l[i]? = some (Spec.int v)) :
    (l.set i (Spec.int m)).map Spec.isDigit = l.map Spec.isDigit := by
  induction l generalizing i with
  | nil => simp
  | cons x xs ih =>
      cases i with
      | zero =>
          have hx : x = Spec.int v := by simpa using hv
          subst hx
          simp [Spec.isDigit]
      | succ j =>
          rw [List.set_cons_succ, List.map_cons, List.map_cons,
            ih j (by simpa using hv)]

/-- The position of a marker token is unaffected by replacing an
integer token with another integer token. -/
lemma indexOf_set_int (l : List Spec) (i v m : Nat) (c : Spec)
    (hv : l[i]? = some (Spec.int v)) (hc : ∀ u, c ≠ Spec.int u) :
    (l.set i (Spec.int m)).indexOf c = l.indexOf c := by
  induction l generalizing i with
  | nil => simp
  | cons x xs ih =>
      cases i with
      | zero =>
          have hx : x = Spec.int v := by simpa using hv
          subst hx
          rw [List.set_cons_zero,
            List.indexOf_cons_ne _ (fun h => hc m h.symm),
            List.indexOf_cons_ne _ (fun h => hc v h.symm)]
      | succ j =>
          rw [List.set_cons_succ]
          by_cases hx : x = c
          · subst hx
            rw [List.indexOf_cons_self, List.indexOf_cons_self]
          · rw [List.indexOf_cons_ne _ hx, List.indexOf_cons_ne _ hx,
              ih j (by simpa using hv)]

/-- C6: replacing an integer token whose value is at least max_faan by
the token max_faan itself leaves the result of parse_spec_list
unchanged, for every token list: capping is applied in every branch
that consumes an integer token, so a faan of v at least max_faan
settles exactly like a faan of max_faan. -/
theorem c6_cap_round_trip (max_faan N v i : Nat) (l : List Spec)
    (hN : N = 3 ∨ N = 4) (hlen : l.length = N)
    (hv : l[i]? = some (Spec.int v)) (hcap : max_faan ≤ v) :
    parse_spec_list max_faan l N
      = parse_spec_list max_faan (l.set i (Spec.int max_faan)) N := by
  have hcH : (l.set i (Spec.int max_faan)).count Spec.hyphen
      = l.count Spec.hyphen :=
    count_set_int l i v max_faan Spec.hyphen hv (fun u h => Spec.noConfusion h)
  have hcD : (l.set i (Spec.int max_faan)).count Spec.d = l.count Spec.d :=
    count_set_int l i v max_faan Spec.d hv (fun u h => Spec.noConfusion h)
  have hcT : (l.set i (Spec.int max_faan)).count Spec.t = l.count Spec.t :=
    count_set_int l i v max_faan Spec.t hv (fun u h => Spec.noConfusion h)
  have hmap : (l.set i (Spec.int max_faan)).map Spec.isDigit
      = l.map Spec.isDigit :=
    map_isDigit_set l i v max_faan hv
  have hlen2 : (l.set i (Spec.int max_faan)).length = N := by
    rw [List.length_set]; exact hlen
  have hilt : i < l.length := (List.getElem?_eq_some.mp hv).1
  have hbs : (l.map Spec.isDigit)[i]? = some true := by
    rw [List.getElem?_map, hv]; rfl
  have hic1 : 0 < (l.map Spec.isDigit).count true :=
    List.count_pos_iff.mpr (mem_of_getElem_eq _ i true hbs)
  have hpart := count_partition l
  rw [hlen] at hpart
  have hN1 : 1 ≤ N := by rcases hN with h | h <;> omega
  have hsp1 : specAt l i = Spec.int v := by
    simp [specAt, List.getD_eq_getElem?_getD, hv]
  have hsp2 : specAt (l.set i (Spec.int max_faan)) i = Spec.int max_faan := by
    simp [specAt, List.getD_eq_getElem?_getD,
      List.getElem?_set_eq_of_lt (Spec.int max_faan) hilt]
  have hcapeq : cap_faan max_faan (Spec.int v).toValue
      = cap_faan max_faan (Spec.int max_faan).toValue := by
    simp [cap_faan, Spec.toValue]
    omega
  by_cases h1 : l.count Spec.hyphen = N
  · exfalso; omega
  · by_cases h2 : l.count Spec.hyphen = N - 1
    · have hic : (l.map Spec.isDigit).count true = 1 := by omega
      have hwidx : (l.map Spec.isDigit).indexOf true = i :=
        indexOf_true_eq _ i hic hbs
      rw [parse_selfdrawn_eq max_faan N l hN1 hlen h2 hic,
        parse_selfdrawn_eq max_faan N (l.set i (Spec.int max_faan)) hN1 hlen2
          (by rw [hcH]; exact h2) (by rw [hmap]; exact hic),
        hmap, hwidx, hsp1, hsp2, hcapeq]
    · by_cases h3 : l.count Spec.hyphen = N - 2
      · have hN2 : 2 ≤ N := by rcases hN with h | h <;> omega
        by_cases hD : (l.map Spec.isDigit).count true = 1
            ∧ l.count Spec.d = 1
        · have hwidx : (l.map Spec.isDigit).indexOf true = i :=
            indexOf_true_eq _ i hD.1 hbs
          have hdidx : (l.set i (Spec.int max_faan)).indexOf Spec.d
              = l.indexOf Spec.d :=
            indexOf_set_int l i v max_faan Spec.d hv
              (fun u h => Spec.noConfusion h)
          rw [parse_discarded_eq max_faan N l hN2 h3 hD.1 hD.2,
            parse_discarded_eq max_faan N (l.set i (Spec.int max_faan)) hN2
              (by rw [hcH]; exact h3) (by rw [hmap]; exact hD.1)
              (by rw [hcD]; exact hD.2),
            hmap, hwidx, hdidx, hsp1, hsp2, hcapeq]
        · by_cases hT : (l.map Spec.isDigit).count true = 1
              ∧ l.count Spec.t = 1
          · have hwidx : (l.map Spec.isDigit).indexOf true = i :=
              indexOf_true_eq _ i hT.1 hbs
            have htidx : (l.set i (Spec.int max_faan)).indexOf Spec.t
                = l.indexOf Spec.t :=
              indexOf_set_int l i v max_faan Spec.t hv
                (fun u h => Spec.noConfusion h)
            rw [parse_takenon_eq max_faan N l hN2 hlen h3 hT.1 hT.2,
              parse_takenon_eq max_faan N (l.set i (Spec.int max_faan)) hN2
                hlen2 (by rw [hcH]; exact h3) (by rw [hmap]; exact hT.1)
                (by rw [hcT]; exact hT.2),
              hmap, hwidx, htidx, hsp1, hsp2, hcapeq]
          · rw [parse_invalid_eq max_faan N l hN2 h3 hD hT,
              parse_invalid_eq max_faan N (l.set i (Spec.int max_faan)) hN2
                (by rw [hcH]; exact h3)
                (by rw [hmap, hcD]; exact hD)
                (by rw [hmap, hcT]; exact hT)]
      · rw [parse_none_eq max_faan N l h1 h2 h3,
          parse_none_eq max_faan N (l.set i (Spec.int max_faan))
            (by rw [hcH]; exact h1) (by rw [hcH]; exact h2)
            (by rw [hcH]; exact h3)]

/-- Witness for C6: a token of 12 faan with max_faan 8 settles exactly
like a token of 8 faan. -/
theorem c6_cap_round_trip_witness :
    parse_spec_list 8 [Spec.int 12, Spec.hyphen, Spec.hyphen] 3
        = parse_spec_list 8
            ([Spec.int 12, Spec.hyphen, Spec.hyphen].set 0 (Spec.int 8)) 3
      ∧ parse_spec_list 8 [Spec.int 12, Spec.hyphen, Spec.hyphen] 3
        = .ok [1, 0, 0] [256, -128, -128] :=
  ⟨c6_cap_round_trip 8 3 12 0 [Spec.int 12, Spec.hyphen, Spec.hyphen]
      (Or.inl rfl) rfl (by decide) (by decide),
    by decide⟩

/-! Invariants of the statistics dictionary maintained by the line
loop. -/

/-- Invariant of the statistics dictionary: no player has won more
games than they have played.  In this embedding both counters are
natural numbers, so they are non negative by construction. -/
def StatsInv (stats_dict : List (String × PlayerStats)) : Prop :=
  ∀ e ∈ stats_dict, e.2.games_won ≤ e.2.games_played

/-- One bump with a win flag of at most one preserves the invariant. -/
lemma bump_inv (d : List (String × PlayerStats)) (p : String) (win : Nat)
    (net : Int) (hd : StatsInv d) (hw : win ≤ 1) : StatsInv (bump d p win net) := by
  intro e he
  simp only [bump] at he
  obtain ⟨e0, he0, hfe⟩ := List.mem_map.mp he
  have h0 := hd e0 he0
  subst hfe
  by_cases hp : e0.1 = p
  · rw [if_pos hp]
    dsimp only
    omega
  · rw [if_neg hp]
    exact h0

/-- Folding bumps whose win flags are at most one preserves the
invariant. -/
lemma foldl_bump_inv (L : List (String × Nat × Int))
    (d : List (String × PlayerStats)) (hL : ∀ t ∈ L, t.2.1 ≤ 1)
    (hd : StatsInv d) :
    StatsInv (L.foldl (fun d e => bump d e.1 e.2.1 e.2.2) d) := by
  induction L generalizing d with
  | nil => exact hd
  | cons t ts ih =>
      simp only [List.foldl_cons]
      exact ih (bump d t.1 t.2.1 t.2.2)
        (fun u hu => hL u (List.mem_cons_of_mem t hu))
        (bump_inv d t.1 t.2.1 t.2.2 hd (hL t (List.mem_cons_self t ts)))

/-- The update loop preserves the invariant when every win flag is at
most one. -/
lemma update_stats_inv (d : List (String × PlayerStats))
    (pl : List String) (wl : List Nat) (nl : List Int)
    (hw : ∀ x ∈ wl, x ≤ 1) (hd : StatsInv d) :
    StatsInv (update_stats d pl wl nl) := by
  unfold update_stats
  apply foldl_bump_inv _ _ _ hd
  intro t ht
  rcases t with ⟨a, b, c⟩
  have h1 := List.of_mem_zip ht
  have h2 := List.of_mem_zip h1.2
  exact hw b h2.1

/-- Adding a player with the clean slate preserves the invariant. -/
lemma add_player_inv (d : List (String × PlayerStats)) (p : String)
    (hd : StatsInv d) : StatsInv (add_player d p) := by
  unfold add_player
  split
  · exact hd
  · intro e he
    rcases List.mem_append.mp he with h | h
    · exact hd e h
    · have he2 : e = (p, zeroStats) := by simpa using h
      rw [he2]
      exact Nat.le_refl 0

/-- Registering every player of a roster preserves the invariant. -/
lemma foldl_add_player_inv (names : List String)
    (d : List (String × PlayerStats)) (hd : StatsInv d) :
    StatsInv (names.foldl add_player d) := by
  induction names generalizing d with
  | nil => exact hd
  | cons n ns ih => exact ih (add_player d n) (add_player_inv d n hd)

/-- One successful step preserves the invariant. -/
lemma step_inv (max_faan : Nat) (st : AggState) (ev : Event) (st2 : AggState)
    (hd : StatsInv st.stats_dict) (h : step max_faan st ev = .ok st2) :
    StatsInv st2.stats_dict := by
  cases ev with
  | roster names =>
      simp only [step] at h
      split at h
      · simp at h
      · injection h with h2
        subst h2
        exact foldl_add_player_inv names st.stats_dict hd
  | game specs =>
      simp only [step] at h
      cases hpl : st.player_list with
      | none => rw [hpl] at h; simp at h
      | some players =>
          rw [hpl] at h
          dsimp only at h
          split at h
          · simp at h
          · split at h
            case _ hne wl nl heq =>
                injection h with h2
                subst h2
                have hlen : specs.length = players.length := by omega
                exact update_stats_inv st.stats_dict players wl nl
                  (parse_ok_props max_faan players.length specs wl nl hlen heq).1
                  hd
            case _ => simp at h
            case _ => simp at h

/-- Running any event list from a state satisfying the invariant ends
in a state satisfying the invariant. -/
lemma run_inv (max_faan : Nat) (evs : List Event) (st st2 : AggState)
    (hd : StatsInv st.stats_dict)
    (h : runEvents max_faan st evs = .ok st2) : StatsInv st2.stats_dict := by
  induction evs generalizing st with
  | nil =>
      simp only [runEvents] at h
      injection h with h2
      subst h2
      exact hd
  | cons e es ih =>
      simp only [runEvents] at h
      cases hstep : step max_faan st e with
      | ok stm =>
          rw [hstep] at h
          exact ih stm (step_inv max_faan st e stm hd hstep) h
      | error err => rw [hstep] at h; simp at h

/-- C9: for every player and after every sequence of roster and game
lines processed from the initial empty state, the registered counters
satisfy games_won at most games_played (both are natural numbers, so
zero at most games_won holds by construction). -/
theorem c9_won_le_played (max_faan : Nat) (evs : List Event) (st2 : AggState)
    (h : runEvents max_faan initState evs = .ok st2) :
    ∀ e ∈ st2.stats_dict, e.2.games_won ≤ e.2.games_played :=
  run_inv max_faan evs initState st2 (fun e he => absurd he (by simp [initState])) h

/-- Witness for C9 on a concrete run of one roster line and one game
line. -/
theorem c9_won_le_played_witness :
    runEvents 8 initState
        [Event.roster ["A", "B", "C"],
          Event.game [Spec.int 3, Spec.hyphen, Spec.hyphen]]
      = .ok ⟨[("A", ⟨1, 1, 32⟩), ("B", ⟨1, 0, -16⟩), ("C", ⟨1, 0, -16⟩)],
          some ["A", "B", "C"]⟩
    ∧ ∀ e ∈ (⟨[("A", ⟨1, 1, 32⟩), ("B", ⟨1, 0, -16⟩), ("C", ⟨1, 0, -16⟩)],
          some ["A", "B", "C"]⟩ : AggState).stats_dict,
        e.2.games_won ≤ e.2.games_played :=
  ⟨by decide,
    c9_won_le_played 8
      [Event.roster ["A", "B", "C"],
        Event.game [Spec.int 3, Spec.hyphen, Spec.hyphen]]
      ⟨[("A", ⟨1, 1, 32⟩), ("B", ⟨1, 0, -16⟩), ("C", ⟨1, 0, -16⟩)],
        some ["A", "B", "C"]⟩
      (by decide)⟩

/-- C8: a roster line with a repeated player name fails with the
duplicate player error; the raise happens before any player is added,
so the statistics dictionary of the state is not touched (the step
returns no successor state). -/
theorem c8_duplicate_roster (max_faan : Nat) (st : AggState)
    (names : List String)
    (hlen : names.length = 3 ∨ names.length = 4)
    (hdup : ¬ names.Nodup) :
    step max_faan st (.roster names) = .error .duplicatePlayer := by
  simp only [step, if_pos hdup]

/-- Witness for C8 on the concrete roster Alice Alice Bob. -/
theorem c8_duplicate_roster_witness :
    ((["Alice", "Alice", "Bob"] : List String).length = 3
        ∨ (["Alice", "Alice", "Bob"] : List String).length = 4)
    ∧ ¬ (["Alice", "Alice", "Bob"] : List String).Nodup
    ∧ step 8 initState (.roster ["Alice", "Alice", "Bob"])
        = .error .duplicatePlayer :=
  ⟨Or.inl rfl, by decide,
    c8_duplicate_roster 8 initState ["Alice", "Alice", "Bob"]
      (Or.inl rfl) (by decide)⟩

/-- Lookup of a player other than the bumped one is unchanged. -/
lemma bump_lookup_ne (d : List (String × PlayerStats)) (p q : String)
    (win : Nat) (net : Int) (h : q ≠ p) :
    (bump d p win net).lookup q = d.lookup q := by
  induction d with
  | nil => rfl
  | cons e es ih =>
      rcases e with ⟨k, v⟩
      by_cases hkq : k = q
      · have hkp : ¬ (k = p) := fun he => h (hkq.symm.trans he)
        subst hkq
        simp only [bump, List.map_cons]
        rw [if_neg hkp]
        simp [List.lookup]
      · have hqk : (q == k) = false :=
          beq_eq_false_iff_ne.mpr (fun he => hkq he.symm)
        by_cases hkp : k = p
        · subst hkp
          simp only [bump, List.map_cons]
          rw [if_pos trivial]
          simp only [List.lookup, hqk]
          exact ih
        · simp only [bump, List.map_cons]
          rw [if_neg hkp]
          simp only [List.lookup, hqk]
          exact ih

/-- Lookup of a player not named in the fold is unchanged. -/
lemma foldl_bump_lookup (L : List (String × Nat × Int))
    (d : List (String × PlayerStats)) (q : String)
    (hL : ∀ t ∈ L, t.1 ≠ q) :
    (L.foldl (fun d e => bump d e.1 e.2.1 e.2.2) d).lookup q = d.lookup q := by
  induction L generalizing d with
  | nil => rfl
  | cons t ts ih =>
      simp only [List.foldl_cons]
      rw [ih (bump d t.1 t.2.1 t.2.2) (fun u hu => hL u (List.mem_cons_of_mem t hu)),
        bump_lookup_ne d t.1 q t.2.1 t.2.2
          (fun he => hL t (List.mem_cons_self t ts) he.symm)]

/-- C10: a successfully processed game line mutates only the players of
the active roster: the record of every other registered player is
unchanged. -/
theorem c10_frame (max_faan : Nat) (stats : List (String × PlayerStats))
    (players : List String) (specs : List Spec) (st2 : AggState) (q : String)
    (h : step max_faan ⟨stats, some players⟩ (.game specs) = .ok st2)
    (hq : q ∉ players) :
    st2.stats_dict.lookup q = stats.lookup q := by
  simp only [step] at h
  split at h
  · simp at h
  · split at h
    case _ wl nl heq =>
        injection h with h2
        subst h2
        simp only [update_stats]
        apply foldl_bump_lookup
        intro t ht
        rcases t with ⟨a, b, c⟩
        have hmem := (List.of_mem_zip ht).1
        intro he
        subst he
        exact hq hmem
    case _ => simp at h
    case _ => simp at h

/-- Witness for C10 on a concrete state holding a fourth registered
player D away from the active roster A B C. -/
theorem c10_frame_witness :
    step 8 ⟨[("A", ⟨2, 1, 5⟩), ("B", ⟨2, 1, 0⟩), ("C", ⟨2, 0, -5⟩),
          ("D", ⟨5, 2, 7⟩)], some ["A", "B", "C"]⟩
        (.game [Spec.int 3, Spec.hyphen, Spec.hyphen])
      = .ok ⟨[("A", ⟨3, 2, 37⟩), ("B", ⟨3, 1, -16⟩), ("C", ⟨3, 0, -21⟩),
          ("D", ⟨5, 2, 7⟩)], some ["A", "B", "C"]⟩
    ∧ ("D" : String) ∉ (["A", "B", "C"] : List String)
    ∧ (⟨[("A", ⟨3, 2, 37⟩), ("B", ⟨3, 1, -16⟩), ("C", ⟨3, 0, -21⟩),
          ("D", ⟨5, 2, 7⟩)], some ["A", "B", "C"]⟩ : AggState).stats_dict.lookup "D"
      = ([("A", (⟨2, 1, 5⟩ : PlayerStats)), ("B", ⟨2, 1, 0⟩), ("C", ⟨2, 0, -5⟩),
          ("D", ⟨5, 2, 7⟩)]).lookup "D" :=
  ⟨by decide, by decide,
    c10_frame 8
      [("A", ⟨2, 1, 5⟩), ("B", ⟨2, 1, 0⟩), ("C", ⟨2, 0, -5⟩), ("D", ⟨5, 2, 7⟩)]
      ["A", "B", "C"] [Spec.int 3, Spec.hyphen, Spec.hyphen]
      ⟨[("A", ⟨3, 2, 37⟩), ("B", ⟨3, 1, -16⟩), ("C", ⟨3, 0, -21⟩),
          ("D", ⟨5, 2, 7⟩)], some ["A", "B", "C"]⟩
      "D" (by decide) (by decide)⟩

/-- C3, code evaluated at the failing input: a registered player with
zero games played (for instance after a roster line never followed by a
game line) makes dict_to_csv fail with the division by zero error at
report time, instead of reporting the rates as an undefined marker. -/
theorem c3_zero_games_zero_division :
    dict_to_csv [("Alice", zeroStats)] = .error CsvError.zeroDivision := by
  rfl

/-- Successful rate computation preserves each player name and record,
in order. -/
lemma compute_rates_shape (stats : List (String × PlayerStats))
    (rs : List (String × PlayerStats × ℚ × ℚ))
    (h : compute_rates stats = .ok rs) :
    rs.map (fun r => (r.1, r.2.1)) = stats := by
  induction stats generalizing rs with
  | nil =>
      simp only [compute_rates] at h
      injection h with h2
      subst h2
      rfl
  | cons e es ih =>
      rcases e with ⟨player, p⟩
      simp only [compute_rates] at h
      split at h
      · simp at h
      · cases hres : compute_rates es with
        | ok rs0 =>
            rw [hres] at h
            dsimp only at h
            injection h with h2
            subst h2
            simp only [List.map_cons, ih rs0 hres]
        | error err => rw [hres] at h; simp at h

/-- C7: the finalized rows are sorted by descending raw integer net
score with ties broken by ascending player name, and they are exactly
the registered players (the sort key reads the raw net_score stored in
each row, which rounding of the displayed rates never touches). -/
theorem c7_sorted_rows (stats : List (String × PlayerStats))
    (rows : List (String × PlayerStats × ℚ × ℚ))
    (h : dict_to_csv stats = .ok rows) :
    List.Sorted rowLe rows
      ∧ List.Perm (rows.map (fun r => (r.1, r.2.1))) stats := by
  simp only [dict_to_csv] at h
  cases hres : compute_rates stats with
  | error err => rw [hres] at h; simp at h
  | ok rs =>
      rw [hres] at h
      dsimp only at h
      injection h with h2
      subst h2
      constructor
      · exact List.Pairwise.map _ (fun a b hab => hab)
          (List.sorted_insertionSort rowLe rs)
      · rw [List.map_map]
        have hperm : List.Perm
            ((List.insertionSort rowLe rs).map (fun r => (r.1, r.2.1)))
            (rs.map (fun r => (r.1, r.2.1))) :=
          (List.perm_insertionSort rowLe rs).map _
        rw [compute_rates_shape stats rs hres] at hperm
        exact hperm

/-- Witness for C7 on the concrete scores of the specification example:
A and B tie on net score 10 and C trails with 5, so the rows come out
A, B, C with the tie decided by the names. -/
theorem c7_sorted_rows_witness :
    dict_to_csv [("C", ⟨2, 1, 5⟩), ("B", ⟨2, 1, 10⟩), ("A", ⟨2, 0, 10⟩)]
        = .ok [("A", ⟨2, 0, 10⟩, 0, 5), ("B", ⟨2, 1, 10⟩, 50, 5),
            ("C", ⟨2, 1, 5⟩, 50, (5 : ℚ) / 2)]
      ∧ (List.Sorted rowLe
          [("A", (⟨2, 0, 10⟩ : PlayerStats), (0 : ℚ), (5 : ℚ)),
            ("B", ⟨2, 1, 10⟩, 50, 5), ("C", ⟨2, 1, 5⟩, 50, (5 : ℚ) / 2)]
        ∧ List.Perm
            (([("A", (⟨2, 0, 10⟩ : PlayerStats), (0 : ℚ), (5 : ℚ)),
              ("B", ⟨2, 1, 10⟩, 50, 5),
              ("C", ⟨2, 1, 5⟩, 50, (5 : ℚ) / 2)]).map (fun r => (r.1, r.2.1)))
            [("C", ⟨2, 1, 5⟩), ("B", ⟨2, 1, 10⟩), ("A", ⟨2, 0, 10⟩)]) := by
  have hBA : ¬ (("B" : String) ≤ "A") :=
    not_le.mpr (String.lt_iff_toList_lt.mpr (by decide))
  have heval : dict_to_csv [("C", ⟨2, 1, 5⟩), ("B", ⟨2, 1, 10⟩), ("A", ⟨2, 0, 10⟩)]
      = .ok [("A", ⟨2, 0, 10⟩, 0, 5), ("B", ⟨2, 1, 10⟩, 50, 5),
          ("C", ⟨2, 1, 5⟩, 50, (5 : ℚ) / 2)] := by
    simp only [dict_to_csv, compute_rates]
    norm_num [List.insertionSort, List.orderedInsert, rowLe, round1,
      round_half_even, hBA]
  exact ⟨heval,
    c7_sorted_rows [("C", ⟨2, 1, 5⟩), ("B", ⟨2, 1, 10⟩), ("A", ⟨2, 0, 10⟩)]
      [("A", ⟨2, 0, 10⟩, 0, 5), ("B", ⟨2, 1, 10⟩, 50, 5),
        ("C", ⟨2, 1, 5⟩, 50, (5 : ℚ) / 2)] heval⟩

end Mahjong
